import Mathlib

/-!
Verification of the gpt-web-driver interaction engine.

Shallow embedding of the Python sources under `src/gpt_web_driver/`:
pure string/HTML processing is embedded directly; the polling loops
(`wait_for_selector`, `wait_for_assistant_reply`) are embedded as functions
over an explicit trace of poll observations with rational time stamps; the
RNG is abstracted as an explicit draw function; OS-level side effects are
embedded as explicit effect lists.  Machine floats of the source are
modelled as rationals; Python's ASCII string semantics (`lower`, `strip`,
`in`, regex `\s`) are modelled on ASCII, which covers every constant
appearing in the repository.
-/

/-! ## Python-style string primitives -/

/-- `seqStarts n h` : `h` starts with `n` (Python prefix test used for `in`). -/
def seqStarts : List Char → List Char → Bool
  | [], _ => true
  | _ :: _, [] => false
  | n :: ns, h :: hs => if n = h then seqStarts ns hs else false

/-- `seqIn n h` : `n` occurs contiguously inside `h` (Python `n in h` on `str`). -/
def seqIn (needle : List Char) : List Char → Bool
  | [] => needle.isEmpty
  | c :: rest => seqStarts needle (c :: rest) || seqIn needle rest

/-- Python `needle in hay` for strings. -/
def strIn (hay needle : String) : Bool := seqIn needle.toList hay.toList

/-- Python's ASCII whitespace class (`\s` of `re`, default `str.strip`):
space, tab, newline, carriage return, vertical tab, form feed. -/
def wsChar (c : Char) : Bool :=
  c = ' ' || c = '\t' || c = '\n' || c = '\r' || c = '\x0b' || c = '\x0c'

/-- Python `str.strip()` on a character list. -/
def stripChars (cs : List Char) : List Char :=
  ((cs.dropWhile wsChar).reverse.dropWhile wsChar).reverse

/-- Python `str.strip()`. -/
def pyStrip (s : String) : String := String.mk (stripChars s.toList)

/-- ASCII lowering of one character (Python `str.lower` restricted to ASCII,
which covers every keyword constant of the repository). -/
def charLower (c : Char) : Char :=
  if 'A' ≤ c ∧ c ≤ 'Z' then Char.ofNat (c.toNat + 32) else c

/-- Python `str.lower()` (ASCII). -/
def pyLower (s : String) : String := String.mk (s.toList.map charLower)

/-! ## C6 — gaussian interior point (`nodriver_dom.py`: `_gaussian_in_range`,
`selector_viewport_gaussian_point`)

The RNG draw `r.gauss(mean, sigma)` is abstracted as an explicit function
`g : mean → sigma → sample`; quantifying over `g` quantifies over every RNG
state.  Coordinates are rationals. -/

/-- Mirror of `_gaussian_in_range(r, lo, hi)`; the source's local bindings
`mean = (lo+hi)/2`, `sigma = (hi-lo)/6`, `v = r.gauss(mean, sigma)` are
inlined. -/
def gaussian_in_range (g : ℚ → ℚ → ℚ) (lo hi : ℚ) : ℚ :=
  if hi ≤ lo then lo
  else if g ((lo + hi) / 2) ((hi - lo) / 6) < lo then lo
  else if g ((lo + hi) / 2) ((hi - lo) / 6) > hi then hi
  else g ((lo + hi) / 2) ((hi - lo) / 6)

/-- `quad[0::2]` — the even-index entries of the flat quad list. -/
def evenItems : List ℚ → List ℚ
  | [] => []
  | [x] => [x]
  | x :: _ :: rest => x :: evenItems rest

/-- `quad[1::2]` — the odd-index entries of the flat quad list. -/
def oddItems (l : List ℚ) : List ℚ := evenItems (l.drop 1)

/-- Python `min` over a list (junk value 0 on the empty list, which Python
rejects at runtime; theorems assume a well-formed quad). -/
def listMin : List ℚ → ℚ
  | [] => 0
  | x :: rest => rest.foldl min x

/-- Python `max` over a list (junk value 0 on the empty list). -/
def listMax : List ℚ → ℚ
  | [] => 0
  | x :: rest => rest.foldl max x

structure ViewportPoint where
  x : ℚ
  y : ℚ
deriving DecidableEq

/-- `inner_min_x = min_x + 0.25 * (max_x - min_x)`. -/
def innerMinX (quad : List ℚ) : ℚ :=
  listMin (evenItems quad) + (1 / 4) * (listMax (evenItems quad) - listMin (evenItems quad))

/-- `inner_max_x = max_x - 0.25 * (max_x - min_x)`. -/
def innerMaxX (quad : List ℚ) : ℚ :=
  listMax (evenItems quad) - (1 / 4) * (listMax (evenItems quad) - listMin (evenItems quad))

/-- `inner_min_y = min_y + 0.25 * (max_y - min_y)`. -/
def innerMinY (quad : List ℚ) : ℚ :=
  listMin (oddItems quad) + (1 / 4) * (listMax (oddItems quad) - listMin (oddItems quad))

/-- `inner_max_y = max_y - 0.25 * (max_y - min_y)`. -/
def innerMaxY (quad : List ℚ) : ℚ :=
  listMax (oddItems quad) - (1 / 4) * (listMax (oddItems quad) - listMin (oddItems quad))

/-- Mirror of `selector_viewport_gaussian_point`, applied to the quad already
fetched in viewport coordinates; `gx`, `gy` are the two successive RNG draws. -/
def selector_viewport_gaussian_point (gx gy : ℚ → ℚ → ℚ) (quad : List ℚ) : ViewportPoint :=
  ⟨gaussian_in_range gx (innerMinX quad) (innerMaxX quad),
    gaussian_in_range gy (innerMinY quad) (innerMaxY quad)⟩

lemma foldl_min_le_init (a : ℚ) (l : List ℚ) : l.foldl min a ≤ a := by
  induction l generalizing a with
  | nil => simp
  | cons b t ih =>
      simpa using le_trans (ih (min a b)) (min_le_left a b)

lemma init_le_foldl_max (a : ℚ) (l : List ℚ) : a ≤ l.foldl max a := by
  induction l generalizing a with
  | nil => simp
  | cons b t ih =>
      simpa using le_trans (le_max_left a b) (ih (max a b))

lemma listMin_le_listMax {l : List ℚ} (h : l ≠ []) : listMin l ≤ listMax l := by
  cases l with
  | nil => exact absurd rfl h
  | cons x t =>
      simp only [listMin, listMax]
      exact le_trans (foldl_min_le_init x t) (init_le_foldl_max x t)

lemma evenItems_ne_nil {l : List ℚ} (h : l ≠ []) : evenItems l ≠ [] := by
  match l with
  | [] => exact absurd rfl h
  | [x] => simp [evenItems]
  | x :: _ :: rest => simp [evenItems]

lemma gaussian_in_range_mem (g : ℚ → ℚ → ℚ) {lo hi : ℚ} (h : lo ≤ hi) :
    lo ≤ gaussian_in_range g lo hi ∧ gaussian_in_range g lo hi ≤ hi := by
  unfold gaussian_in_range
  by_cases hd : hi ≤ lo
  · rw [if_pos hd]
    exact ⟨le_refl lo, h⟩
  · rw [if_neg hd]
    by_cases h1 : g ((lo + hi) / 2) ((hi - lo) / 6) < lo
    · rw [if_pos h1]
      exact ⟨le_refl lo, h⟩
    · rw [if_neg h1]
      by_cases h2 : g ((lo + hi) / 2) ((hi - lo) / 6) > hi
      · rw [if_pos h2]
        exact ⟨h, le_refl hi⟩
      · rw [if_neg h2]
        push_neg at h1 h2
        exact ⟨h1, h2⟩

/-- C6: for every element quad and every RNG state, the gaussian interior
point sampler returns a point whose x and y each lie within the inner-50%
sub-rectangle of the element's bounding box (25% margin trimmed per side);
each axis is drawn from a normal distribution centered on the inner range's
midpoint with sigma = range/6, and an out-of-range sample is clamped to the
nearest edge of the range. -/
theorem gaussian_point_in_inner_box (gx gy : ℚ → ℚ → ℚ) (quad : List ℚ)
    (h : 2 ≤ quad.length) :
    (innerMinX quad ≤ (selector_viewport_gaussian_point gx gy quad).x ∧
      (selector_viewport_gaussian_point gx gy quad).x ≤ innerMaxX quad) ∧
    (innerMinY quad ≤ (selector_viewport_gaussian_point gx gy quad).y ∧
      (selector_viewport_gaussian_point gx gy quad).y ≤ innerMaxY quad) ∧
    (∀ (g : ℚ → ℚ → ℚ) (lo hi : ℚ), lo < hi →
      lo ≤ g ((lo + hi) / 2) ((hi - lo) / 6) →
      g ((lo + hi) / 2) ((hi - lo) / 6) ≤ hi →
      gaussian_in_range g lo hi = g ((lo + hi) / 2) ((hi - lo) / 6)) := by
  have hx : quad ≠ [] := by
    intro hq; rw [hq] at h; simp at h
  have hy : quad.drop 1 ≠ [] := by
    intro hq
    rw [List.drop_eq_nil_iff] at hq
    omega
  have hminx := listMin_le_listMax (evenItems_ne_nil hx)
  have hminy := listMin_le_listMax (evenItems_ne_nil hy)
  have hbx : innerMinX quad ≤ innerMaxX quad := by
    unfold innerMinX innerMaxX; linarith
  have hby : innerMinY quad ≤ innerMaxY quad := by
    unfold innerMinY innerMaxY oddItems
    linarith
  refine ⟨?_, ?_, ?_⟩
  · exact gaussian_in_range_mem gx hbx
  · exact gaussian_in_range_mem gy hby
  · intro g lo hi hlt hlo hhi
    unfold gaussian_in_range
    rw [if_neg (not_le.mpr hlt)]
    rw [if_neg (not_lt.mpr hlo), if_neg (not_lt.mpr hhi)]

/-- Witness for C6 at a concrete quad and concrete draws. -/
theorem gaussian_point_in_inner_box_witness :
    (innerMinX [0, 0, 100, 0, 100, 40, 0, 40] ≤
      (selector_viewport_gaussian_point (fun m _ => m) (fun m s => m + s)
        [0, 0, 100, 0, 100, 40, 0, 40]).x ∧
      (selector_viewport_gaussian_point (fun m _ => m) (fun m s => m + s)
        [0, 0, 100, 0, 100, 40, 0, 40]).x ≤ innerMaxX [0, 0, 100, 0, 100, 40, 0, 40]) ∧
    (innerMinY [0, 0, 100, 0, 100, 40, 0, 40] ≤
      (selector_viewport_gaussian_point (fun m _ => m) (fun m s => m + s)
        [0, 0, 100, 0, 100, 40, 0, 40]).y ∧
      (selector_viewport_gaussian_point (fun m _ => m) (fun m s => m + s)
        [0, 0, 100, 0, 100, 40, 0, 40]).y ≤ innerMaxY [0, 0, 100, 0, 100, 40, 0, 40]) ∧
    (∀ (g : ℚ → ℚ → ℚ) (lo hi : ℚ), lo < hi →
      lo ≤ g ((lo + hi) / 2) ((hi - lo) / 6) →
      g ((lo + hi) / 2) ((hi - lo) / 6) ≤ hi →
      gaussian_in_range g lo hi = g ((lo + hi) / 2) ((hi - lo) / 6)) :=
  gaussian_point_in_inner_box (fun m _ => m) (fun m s => m + s)
    [0, 0, 100, 0, 100, 40, 0, 40] (by decide)

/-! ## C5 — HybridInput.smart_enter (`actions/input.py`)

The clipboard environment is explicit: `available` models whether `pyperclip`
imports and `paste()` succeeds in `_ClipboardHygiene.__enter__`;
`hotkeyFails` models the paste hotkey raising.  Effects record the calls in
program order; the second component is the final clipboard content. -/

inductive InputEffect
  | clipboardSave
  | clipboardCopy (text : String)
  | pasteHotkey
  | clipboardRestore (text : String)
  | typed (text : String)
deriving DecidableEq

structure ClipEnv where
  available : Bool
  clipboard : String
  hotkeyFails : Bool

/-- Mirror of `HybridInput.smart_enter`: length at or above the threshold
attempts the clipboard path inside `_ClipboardHygiene` (save on enter,
restore on exit, even when the hotkey raises — then falls back to typing);
an unavailable clipboard makes `cb.copy` raise, which is caught and falls
back to typing with no clipboard effect; short text types directly. -/
def smart_enter (threshold : Nat) (env : ClipEnv) (text : String) :
    List InputEffect × String :=
  if threshold ≤ text.length ∧ env.available = true then
    let saved := env.clipboard
    if env.hotkeyFails then
      ([.clipboardSave, .clipboardCopy text, .pasteHotkey, .clipboardRestore saved,
        .typed text], saved)
    else
      ([.clipboardSave, .clipboardCopy text, .pasteHotkey, .clipboardRestore saved], saved)
  else
    ([.typed text], env.clipboard)

/-- C5: text at or above `pasteThreshold` with clipboard tooling available
uses the clipboard path and restores the pre-existing clipboard content on
every exit path, including when the paste hotkey raises (in which case the
typing simulator is used); shorter text, or unavailable clipboard tooling,
uses the typing simulator with the clipboard untouched. -/
theorem smart_enter_clipboard_hygiene (threshold : Nat) (env : ClipEnv) (text : String) :
    (threshold ≤ text.length → env.available = true →
      (smart_enter threshold env text).2 = env.clipboard ∧
      InputEffect.clipboardRestore env.clipboard ∈ (smart_enter threshold env text).1 ∧
      (env.hotkeyFails = true →
        InputEffect.typed text ∈ (smart_enter threshold env text).1) ∧
      (env.hotkeyFails = false →
        InputEffect.typed text ∉ (smart_enter threshold env text).1 ∧
        InputEffect.pasteHotkey ∈ (smart_enter threshold env text).1)) ∧
    (text.length < threshold ∨ env.available = false →
      (smart_enter threshold env text).1 = [InputEffect.typed text] ∧
      (smart_enter threshold env text).2 = env.clipboard) := by
  constructor
  · intro hlen hav
    have hc : threshold ≤ text.length ∧ env.available = true := ⟨hlen, hav⟩
    unfold smart_enter
    rw [if_pos hc]
    by_cases hf : env.hotkeyFails
    · rw [if_pos hf]
      refine ⟨rfl, by simp, fun _ => by simp, fun hff => ?_⟩
      rw [hf] at hff; cases hff
    · rw [if_neg hf]
      refine ⟨rfl, by simp, fun hft => ?_, fun _ => by simp⟩
      exact absurd hft hf
  · intro hshort
    have hc : ¬ (threshold ≤ text.length ∧ env.available = true) := by
      rcases hshort with hl | ha
      · intro ⟨h1, _⟩; omega
      · intro ⟨_, h2⟩; rw [ha] at h2; cases h2
    unfold smart_enter
    rw [if_neg hc]
    exact ⟨rfl, rfl⟩

/-- Witness for C5: a long text with clipboard available and a failing
hotkey still restores the clipboard and falls back to typing. -/
theorem smart_enter_clipboard_hygiene_witness :
    (smart_enter 2 ⟨true, "old", true⟩ "hello").2 = "old" ∧
    InputEffect.typed "hello" ∈ (smart_enter 2 ⟨true, "old", true⟩ "hello").1 := by
  have h := smart_enter_clipboard_hygiene 2 ⟨true, "old", true⟩ "hello"
  have h1 := h.1 (by decide) rfl
  exact ⟨h1.1, h1.2.2.1 rfl⟩

/-! ## C2 — dead-man-switch on chat_completion's reply wait
(`core/safety.py`: `DeadManSwitch.triggered_by`; `nibs.py` 282-290) -/

/-- Default keyword set of `DeadManSwitch`. -/
def deadman_default_keywords : List String :=
  ["challenge", "verify", "captcha", "are you human", "unusual traffic"]

/-- Mirror of `DeadManSwitch.triggered_by`: first keyword whose lowercase
form is non-empty and occurs in the lowercased text. -/
def triggered_by (keywords : List String) (text : String) : Option String :=
  keywords.findSome? (fun k =>
    if pyLower k ≠ "" ∧ strIn (pyLower text) (pyLower k) = true then some (pyLower k)
    else none)

structure ChatErrorOutcome where
  pausedReason : Option String
  raised : String
  beeped : Bool
deriving DecidableEq

/-- Mirror of the `except` clause around `wait_for_assistant_reply` in
`NibsSession.chat_completion`: `k = triggered_by(str(e)) or
triggered_by(snapshot)`; on a hit (or a literal "challenge"/"verify" in the
error text) the paused reason is set to `str(e)` and `beep()` fires; the
bare `raise` always re-raises the original error. -/
def chat_wait_error_handler (keywords : List String) (errText snapshotText : String)
    (paused0 : Option String) : ChatErrorOutcome :=
  let k : Option String :=
    match triggered_by keywords errText with
    | some x => some x
    | none => triggered_by keywords snapshotText
  if k ≠ none ∨ strIn (pyLower errText) "challenge" = true ∨
      strIn (pyLower errText) "verify" = true then
    { pausedReason := some errText, raised := errText, beeped := true }
  else
    { pausedReason := paused0, raised := errText, beeped := false }

/-- C2 counterexample: the empty string is a substring of every error text,
yet a configured empty keyword is skipped by `triggered_by`'s truthiness
guard, so the claim as stated (any configured keyword occurring as a
case-insensitive substring sets pausedReason) fails for the keyword `""`. -/
theorem chat_wait_deadman_counterexample :
    strIn (pyLower "boom") (pyLower "") = true ∧
    (chat_wait_error_handler [""] "boom" "" none).pausedReason = none ∧
    (chat_wait_error_handler [""] "boom" "" none).raised = "boom" := by
  decide

/-- C2 (amended): for every error raised during the reply wait, if any
configured keyword with non-empty text occurs case-insensitively in the
error text or in the page-body snapshot, then pausedReason is set to the
error text, the audible alert fires, and the original error is re-raised
unchanged. -/
theorem chat_wait_deadman (keywords : List String) (e s : String) (p0 : Option String)
    (h : ∃ k ∈ keywords, pyLower k ≠ "" ∧
      (strIn (pyLower e) (pyLower k) = true ∨ strIn (pyLower s) (pyLower k) = true)) :
    (chat_wait_error_handler keywords e s p0).pausedReason = some e ∧
    (chat_wait_error_handler keywords e s p0).raised = e ∧
    (chat_wait_error_handler keywords e s p0).beeped = true := by
  obtain ⟨k, hk, hne, hocc⟩ := h
  have htrig : ∀ t : String, strIn (pyLower t) (pyLower k) = true →
      triggered_by keywords t ≠ none := by
    intro t ho
    unfold triggered_by
    intro hnone
    rw [List.findSome?_eq_none_iff] at hnone
    have := hnone k hk
    rw [if_pos (And.intro hne ho)] at this
    cases this
  have hsome : (match triggered_by keywords e with
      | some x => some x
      | none => triggered_by keywords s) ≠ none := by
    rcases hocc with ho | ho
    · cases hte : triggered_by keywords e with
      | none => exact absurd hte (htrig e ho)
      | some x => simp
    · cases hte : triggered_by keywords e with
      | some x => simp
      | none => simpa using htrig s ho
  unfold chat_wait_error_handler
  rw [if_pos (Or.inl hsome)]
  exact ⟨rfl, rfl, rfl⟩

/-- Witness for C2 at the default keyword set. -/
theorem chat_wait_deadman_witness :
    (chat_wait_error_handler deadman_default_keywords
      "blocked: CAPTCHA required" "" none).pausedReason =
      some "blocked: CAPTCHA required" ∧
    (chat_wait_error_handler deadman_default_keywords
      "blocked: CAPTCHA required" "" none).raised = "blocked: CAPTCHA required" ∧
    (chat_wait_error_handler deadman_default_keywords
      "blocked: CAPTCHA required" "" none).beeped = true :=
  chat_wait_deadman deadman_default_keywords "blocked: CAPTCHA required" "" none
    ⟨"captcha", by decide, by decide, Or.inl (by decide)⟩

/-! ## C8 — html_to_text (`nodriver_dom.py` 538-582)

The repository's in-tree extraction logic is the `HTMLParser` fallback
path: a `_Extractor` that skips data inside `script`/`style` elements,
joins the collected parts with spaces, collapses whitespace runs and
strips the ends.  The tokenizer below models Python's `html.parser` event
stream for the constructs the repository feeds it: plain tags, text, and
the CDATA content mode of `script`/`style` (whose raw content is delivered
as one data event).  (The optional BeautifulSoup path additionally drops
`noscript`; it lives outside the repository.) -/

inductive HtmlTok
  | startTag (name : String)
  | endTag (name : String)
  | text (data : String)
deriving DecidableEq

/-- Characters allowed in a tag name. -/
def tagChar (c : Char) : Bool := c.isAlphanum

/-- Split raw CDATA content at the first occurrence of the closing sequence
`close` (e.g. `"</script"`): returns the content before it and the
remainder starting at `close`. -/
def rawSplit (close : List Char) : List Char → (List Char × List Char)
  | [] => ([], [])
  | c :: rest =>
      if seqStarts close (c :: rest) then ([], c :: rest)
      else
        let p := rawSplit close rest
        (c :: p.1, p.2)

/-- Fuel-indexed tokenizer producing the `html.parser` event stream. -/
def lexAux : Nat → List Char → List HtmlTok
  | 0, _ => []
  | _ + 1, [] => []
  | fuel + 1, '<' :: '/' :: rest =>
      let name := String.mk (rest.takeWhile tagChar)
      let rest2 := (rest.dropWhile tagChar).dropWhile (fun c => c ≠ '>')
      .endTag name :: lexAux fuel (rest2.drop 1)
  | fuel + 1, '<' :: c :: rest =>
      if c.isAlpha then
        let name := String.mk ((c :: rest).takeWhile tagChar)
        let rest2 := ((c :: rest).dropWhile tagChar).dropWhile (fun x => x ≠ '>')
        let rest3 := rest2.drop 1
        if name = "script" ∨ name = "style" then
          let p := rawSplit ('<' :: '/' :: name.toList) rest3
          .startTag name :: .text (String.mk p.1) :: lexAux fuel p.2
        else
          .startTag name :: lexAux fuel rest3
      else
        .text "<" :: lexAux fuel (c :: rest)
  | _ + 1, ['<'] => [.text "<"]
  | fuel + 1, cs =>
      .text (String.mk (cs.takeWhile (fun c => c ≠ '<'))) ::
        lexAux fuel (cs.dropWhile (fun c => c ≠ '<'))

/-- Tokenize an HTML string (the fuel bound covers the whole input since
every step consumes at least one character). -/
def lexHtml (html : String) : List HtmlTok :=
  lexAux (html.toList.length + 1) html.toList

/-- Mirror of the `_Extractor` event handlers: `handle_starttag` increments
the ignore depth on `script`/`style`, `handle_endtag` decrements it when
positive, `handle_data` collects non-empty data only at depth 0. -/
def extractParts : List HtmlTok → Nat → List String
  | [], _ => []
  | .startTag n :: rest, d =>
      if n = "script" ∨ n = "style" then extractParts rest (d + 1)
      else extractParts rest d
  | .endTag n :: rest, d =>
      if (n = "script" ∨ n = "style") ∧ 0 < d then extractParts rest (d - 1)
      else extractParts rest d
  | .text s :: rest, d =>
      if 0 < d then extractParts rest d
      else if s = "" then extractParts rest d
      else s :: extractParts rest d

/-- `re.sub(r"\s+", " ", s)`: collapse every whitespace run to one space.
The flag records whether the previous character was whitespace. -/
def collapseAux : Bool → List Char → List Char
  | _, [] => []
  | prevWs, c :: rest =>
      if wsChar c then
        if prevWs then collapseAux true rest
        else ' ' :: collapseAux true rest
      else c :: collapseAux false rest

/-- Whitespace-run collapse on strings. -/
def wsCollapse (s : String) : String := String.mk (collapseAux false s.toList)

/-- Mirror of `html_to_text` (fallback path):
`_WS_RE.sub(" ", " ".join(p.parts)).strip()`. -/
def html_to_text (html : String) : String :=
  pyStrip (wsCollapse (String.intercalate " " (extractParts (lexHtml html) 0)))

lemma extractParts_start_ignored {n : String} (hn : n = "script" ∨ n = "style")
    (rest : List HtmlTok) (d : Nat) :
    extractParts (.startTag n :: rest) d = extractParts rest (d + 1) := by
  rw [extractParts, if_pos hn]

lemma extractParts_end_ignored {n : String} (hn : n = "script" ∨ n = "style")
    (rest : List HtmlTok) (d : Nat) (hd : 0 < d) :
    extractParts (.endTag n :: rest) d = extractParts rest (d - 1) := by
  rw [extractParts, if_pos (And.intro hn hd)]

lemma extractParts_text_deep (s : String) (rest : List HtmlTok) (d : Nat) (hd : 0 < d) :
    extractParts (.text s :: rest) d = extractParts rest d := by
  rw [extractParts, if_pos hd]

lemma extractParts_drops_ignored {n : String} (hn : n = "script" ∨ n = "style") :
    ∀ (pre post : List HtmlTok) (s : String) (d : Nat),
      extractParts (pre ++ (.startTag n :: .text s :: .endTag n :: post)) d =
        extractParts (pre ++ post) d := by
  intro pre
  induction pre with
  | nil =>
      intro post s d
      simp only [List.nil_append]
      rw [extractParts_start_ignored hn, extractParts_text_deep _ _ _ (Nat.succ_pos d),
        extractParts_end_ignored hn _ _ (Nat.succ_pos d), Nat.succ_sub_one]
  | cons tok pre ih =>
      intro post s d
      cases tok with
      | startTag m =>
          by_cases hm : m = "script" ∨ m = "style"
          · simp only [List.cons_append, extractParts_start_ignored hm]
            exact ih post s (d + 1)
          · simp only [List.cons_append, extractParts, if_neg hm]
            exact ih post s d
      | endTag m =>
          by_cases hm : (m = "script" ∨ m = "style") ∧ 0 < d
          · simp only [List.cons_append, extractParts, if_pos hm]
            exact ih post s (d - 1)
          · simp only [List.cons_append, extractParts, if_neg hm]
            exact ih post s d
      | text t =>
          by_cases hd : 0 < d
          · simp only [List.cons_append, extractParts, if_pos hd]
            exact ih post s d
          · by_cases ht : t = ""
            · simp only [List.cons_append, extractParts, if_neg hd, if_pos ht]
              exact ih post s d
            · simp only [List.cons_append, extractParts, if_neg hd, if_neg ht]
              exact congrArg (t :: ·) (ih post s d)

lemma collapseAux_mem {c : Char} : ∀ (flag : Bool) (cs : List Char),
    c ∈ collapseAux flag cs → c = ' ' ∨ wsChar c = false := by
  intro flag cs
  induction cs generalizing flag with
  | nil => intro h; simp [collapseAux] at h
  | cons a t ih =>
      intro h
      by_cases hw : wsChar a
      · rw [collapseAux, if_pos hw] at h
        by_cases hf : flag
        · rw [if_pos hf] at h
          exact ih true h
        · rw [if_neg hf] at h
          rcases List.mem_cons.mp h with h1 | h2
          · exact Or.inl h1
          · exact ih true h2
      · rw [collapseAux, if_neg hw] at h
        rcases List.mem_cons.mp h with h1 | h2
        · subst h1; exact Or.inr (by simpa using hw)
        · exact ih false h2

lemma mem_of_mem_dropWhile {p : Char → Bool} {c : Char} :
    ∀ {l : List Char}, c ∈ l.dropWhile p → c ∈ l := by
  intro l
  induction l with
  | nil => intro h; simp at h
  | cons a t ih =>
      intro h
      rw [List.dropWhile_cons] at h
      by_cases hp : p a
      · rw [if_pos hp] at h
        exact List.mem_cons_of_mem _ (ih h)
      · rw [if_neg hp] at h
        exact h

lemma mem_of_mem_stripChars {c : Char} {cs : List Char} (h : c ∈ stripChars cs) : c ∈ cs := by
  unfold stripChars at h
  rw [List.mem_reverse] at h
  have h1 := mem_of_mem_dropWhile h
  rw [List.mem_reverse] at h1
  exact mem_of_mem_dropWhile h1

/-- C8 counterexample: the code's HTML-to-text keeps `noscript` content (on
the in-tree fallback path) and inserts no line break around block-level
elements such as `p`; the claim predicts `"A\nB"` here. -/
theorem html_to_text_counterexample :
    html_to_text "<p>A</p><noscript>N</noscript><p>B</p>" = "A N B" ∧
    strIn "A N B" "N" = true ∧
    ('\n' ∈ "A N B".toList → False) := by
  refine ⟨by decide, by decide, by decide⟩

/-- C8 (amended): `html_to_text` drops the contents of `script` and `style`
subtrees (the ignore-depth of the extractor swallows their data events),
collapses whitespace runs into single spaces — it never inserts a line
break, around block-level elements or anywhere else — and
`<div>A <script>bad()</script><span>B</span></div>` yields exactly `A B`. -/
theorem html_to_text_amended :
    (∀ (pre post : List HtmlTok) (s : String) (d : Nat),
      extractParts (pre ++ (.startTag "script" :: .text s :: .endTag "script" :: post)) d =
        extractParts (pre ++ post) d) ∧
    (∀ (pre post : List HtmlTok) (s : String) (d : Nat),
      extractParts (pre ++ (.startTag "style" :: .text s :: .endTag "style" :: post)) d =
        extractParts (pre ++ post) d) ∧
    (∀ h : String, '\n' ∈ (html_to_text h).toList → False) ∧
    html_to_text "<div>A <script>bad()</script><span>B</span></div>" = "A B" := by
  refine ⟨extractParts_drops_ignored (Or.inl rfl),
    extractParts_drops_ignored (Or.inr rfl), ?_, by decide⟩
  intro h hmem
  unfold html_to_text pyStrip at hmem
  have h1 : '\n' ∈ stripChars (wsCollapse
      (String.intercalate " " (extractParts (lexHtml h) 0))).toList := hmem
  have h2 := mem_of_mem_stripChars h1
  unfold wsCollapse at h2
  have h3 := collapseAux_mem false _ h2
  rcases h3 with h3 | h3
  · exact absurd h3 (by decide)
  · exact absurd h3 (by decide)

/-- Witness for C8 applying the script-drop part at a concrete token list. -/
theorem html_to_text_amended_witness :
    extractParts ([HtmlTok.text "A"] ++
        (HtmlTok.startTag "script" :: HtmlTok.text "x()" :: HtmlTok.endTag "script" ::
          [HtmlTok.text "B"])) 0 =
      extractParts ([HtmlTok.text "A"] ++ [HtmlTok.text "B"]) 0 :=
  html_to_text_amended.1 [HtmlTok.text "A"] [HtmlTok.text "B"] "x()" 0

/-! ## C3 — wait_for_selector (`nodriver_dom.py` 376-485)

The CDP polling loop is embedded over an explicit trace: each loop
iteration reads the clock once (`now`) and performs one query attempt whose
outcome is given by the trace (`found` / `notFound` / a raised resolution
error, which the source catches and treats like a miss apart from resetting
its cached node ids — the cache is invisible to the claim).  The deadline
is `loop.time() + timeout_s` computed before the loop; it is a field here.
The sleep lengths are collected in order. -/

inductive QueryRes
  | found
  | notFound
  | errorRes
deriving DecidableEq

structure SelPoll where
  t : ℚ
  res : QueryRes
deriving DecidableEq

structure WfsCfg where
  deadline : ℚ
  poll_s : ℚ
  max_poll_s : ℚ
deriving DecidableEq

inductive WfsOutcome
  | foundRes
  | timeout
  | exhausted
deriving DecidableEq

/-- `poll = max(0.0, float(poll_s))`. -/
def wfs_p0 (cfg : WfsCfg) : ℚ := max 0 cfg.poll_s

/-- `max_poll = max(poll, float(max_poll_s))`. -/
def wfs_cap (cfg : WfsCfg) : ℚ := max (wfs_p0 cfg) cfg.max_poll_s

/-- `if poll > 0: poll = min(max_poll, poll * 1.5)`. -/
def wfs_next (cap poll : ℚ) : ℚ := if 0 < poll then min cap (poll * (3 / 2)) else poll

/-- Mirror of the `wait_for_selector` polling loop; the second component
collects the sleep lengths in order. -/
def wfsFrom (cfg : WfsCfg) : List SelPoll → ℚ → List ℚ → WfsOutcome × List ℚ
  | [], _, sleeps => (.exhausted, sleeps)
  | p :: rest, poll, sleeps =>
      if p.res = .found then (.foundRes, sleeps)
      else if cfg.deadline ≤ p.t then (.timeout, sleeps)
      else wfsFrom cfg rest (wfs_next (wfs_cap cfg) poll) (sleeps ++ [poll])

/-- `wait_for_selector` on a trace of poll outcomes. -/
def wait_for_selector_run (cfg : WfsCfg) (polls : List SelPoll) : WfsOutcome × List ℚ :=
  wfsFrom cfg polls (wfs_p0 cfg) []

/-- The interval sequence actually produced: start at `max 0 poll_s`, then
multiply by 1.5 capping at `max (max 0 poll_s) max_poll_s`. -/
def pollSeq (cfg : WfsCfg) : Nat → ℚ
  | 0 => wfs_p0 cfg
  | n + 1 => wfs_next (wfs_cap cfg) (pollSeq cfg n)

lemma wfsFrom_sleeps_seq (cfg : WfsCfg) :
    ∀ (polls : List SelPoll) (i : Nat),
      ∃ m, i ≤ m ∧
        (wfsFrom cfg polls (pollSeq cfg i) ((List.range i).map (pollSeq cfg))).2 =
          (List.range m).map (pollSeq cfg) := by
  intro polls
  induction polls with
  | nil => intro i; exact ⟨i, le_refl i, rfl⟩
  | cons p rest ih =>
      intro i
      by_cases hf : p.res = .found
      · exact ⟨i, le_refl i, by rw [wfsFrom, if_pos hf]⟩
      · by_cases hd : cfg.deadline ≤ p.t
        · exact ⟨i, le_refl i, by rw [wfsFrom, if_neg hf, if_pos hd]⟩
        · obtain ⟨m, hm, heq⟩ := ih (i + 1)
          refine ⟨m, le_trans (Nat.le_succ i) hm, ?_⟩
          rw [wfsFrom, if_neg hf, if_neg hd]
          have hstep : (List.range i).map (pollSeq cfg) ++ [pollSeq cfg i] =
              (List.range (i + 1)).map (pollSeq cfg) := by
            rw [List.range_succ, List.map_append, List.map_cons, List.map_nil]
          rw [hstep]
          exact heq

lemma wfsFrom_found_first (cfg : WfsCfg) :
    ∀ (polls : List SelPoll) (poll : ℚ) (sleeps : List ℚ),
      (wfsFrom cfg polls poll sleeps).1 = .foundRes →
      ∃ j p, polls.get? j = some p ∧ p.res = .found ∧
        (wfsFrom cfg polls poll sleeps).2.length = sleeps.length + j ∧
        ∀ k, k < j → ∀ q, polls.get? k = some q → q.res ≠ .found ∧ q.t < cfg.deadline := by
  intro polls
  induction polls with
  | nil => intro poll sleeps h; rw [wfsFrom] at h; cases h
  | cons p rest ih =>
      intro poll sleeps h
      by_cases hf : p.res = .found
      · refine ⟨0, p, rfl, hf, ?_, ?_⟩
        · rw [wfsFrom, if_pos hf]
          simp
        · intro k hk; omega
      · by_cases hd : cfg.deadline ≤ p.t
        · rw [wfsFrom, if_neg hf, if_pos hd] at h; cases h
        · rw [wfsFrom, if_neg hf, if_neg hd] at h
          obtain ⟨j, q, hq, hqf, hlen, hprev⟩ :=
            ih (wfs_next (wfs_cap cfg) poll) (sleeps ++ [poll]) h
          refine ⟨j + 1, q, hq, hqf, ?_, ?_⟩
          · rw [wfsFrom, if_neg hf, if_neg hd, hlen]
            simp
            omega
          · intro k hk r hr
            cases k with
            | zero =>
                cases hr
                exact ⟨hf, lt_of_not_le hd⟩
            | succ k' => exact hprev k' (by omega) r hr

lemma wfsFrom_timeout_at (cfg : WfsCfg) :
    ∀ (polls : List SelPoll) (poll : ℚ) (sleeps : List ℚ),
      (wfsFrom cfg polls poll sleeps).1 = .timeout →
      ∃ j p, polls.get? j = some p ∧ cfg.deadline ≤ p.t := by
  intro polls
  induction polls with
  | nil => intro poll sleeps h; rw [wfsFrom] at h; cases h
  | cons p rest ih =>
      intro poll sleeps h
      by_cases hf : p.res = .found
      · rw [wfsFrom, if_pos hf] at h; cases h
      · by_cases hd : cfg.deadline ≤ p.t
        · exact ⟨0, p, rfl, hd⟩
        · rw [wfsFrom, if_neg hf, if_neg hd] at h
          obtain ⟨j, q, hq, hqd⟩ := ih (wfs_next (wfs_cap cfg) poll) (sleeps ++ [poll]) h
          exact ⟨j + 1, q, hq, hqd⟩

/-- C3 counterexample: with `poll_s = 2` and `max_poll_s = 1` the second
sleep is again 2, not capped at the configured maximum 1 — the source caps
at `max(poll, max_poll_s)`, not at `max_poll_s`. -/
theorem wait_for_selector_counterexample :
    (wait_for_selector_run ⟨100, 2, 1⟩
      [⟨0, QueryRes.notFound⟩, ⟨1, QueryRes.notFound⟩, ⟨2, QueryRes.found⟩]).2 =
      [2, 2] ∧
    ¬ ((2 : ℚ) ≤ 1) := by
  constructor
  · norm_num [wait_for_selector_run, wfsFrom, wfs_p0, wfs_cap, wfs_next, min_def, max_def]
    rfl
  · norm_num

/-- C3 (amended): the sleeps of every run follow `pollSeq`: the first
interval is `max 0 poll_s`, each subsequent interval is 1.5 times the
previous one capped at `max (max 0 poll_s) max_poll_s` (for non-negative
configured values this is the configured initial value and, when the
initial value does not already exceed it, the configured maximum); the call
returns at the first poll that finds a match, sleeping only for the misses
before it; and Timeout is raised only at a poll whose iteration-start time
is at or after the deadline, never before it. -/
theorem wait_for_selector_amended (cfg : WfsCfg) (polls : List SelPoll) :
    (wait_for_selector_run cfg polls).2 =
      (List.range (wait_for_selector_run cfg polls).2.length).map (pollSeq cfg) ∧
    ((wait_for_selector_run cfg polls).1 = .foundRes →
      ∃ j p, polls.get? j = some p ∧ p.res = .found ∧
        (wait_for_selector_run cfg polls).2.length = j ∧
        ∀ k, k < j → ∀ q, polls.get? k = some q →
          q.res ≠ .found ∧ q.t < cfg.deadline) ∧
    ((wait_for_selector_run cfg polls).1 = .timeout →
      ∃ j p, polls.get? j = some p ∧ cfg.deadline ≤ p.t) := by
  refine ⟨?_, ?_, ?_⟩
  · obtain ⟨m, _, heq⟩ := wfsFrom_sleeps_seq cfg polls 0
    have h0 : wait_for_selector_run cfg polls =
        wfsFrom cfg polls (pollSeq cfg 0) ((List.range 0).map (pollSeq cfg)) := rfl
    rw [h0, heq]
    simp
  · intro h
    obtain ⟨j, p, hp, hpf, hlen, hprev⟩ := wfsFrom_found_first cfg polls (wfs_p0 cfg) [] h
    exact ⟨j, p, hp, hpf, by simpa using hlen, hprev⟩
  · intro h
    exact wfsFrom_timeout_at cfg polls (wfs_p0 cfg) [] h

/-- Witness for C3: a concrete run that finds the selector on the second
poll after exactly one sleep. -/
theorem wait_for_selector_amended_witness :
    ∃ j p, ([⟨0, QueryRes.notFound⟩, ⟨1, QueryRes.found⟩] : List SelPoll).get? j = some p ∧
      p.res = .found ∧
      (wait_for_selector_run ⟨100, 1, 4⟩
        [⟨0, QueryRes.notFound⟩, ⟨1, QueryRes.found⟩]).2.length = j ∧
      ∀ k, k < j → ∀ q,
        ([⟨0, QueryRes.notFound⟩, ⟨1, QueryRes.found⟩] : List SelPoll).get? k = some q →
        q.res ≠ .found ∧ q.t < (100 : ℚ) :=
  (wait_for_selector_amended ⟨100, 1, 4⟩
    [⟨0, QueryRes.notFound⟩, ⟨1, QueryRes.found⟩]).2.1 (by decide)

/-! ## C1 — wait_for_assistant_reply (`core/observer.py` 132-186)

The cooperative polling loop is embedded over an explicit trace of polls.
One loop iteration reads the monotonic clock at up to three points —
the deadline check (`t1`), the stability-timer restart (`t2`) and the
stability check (`t3`) — and observes the current last assistant-role
message text (`txt`, `none` when absent).  The DOM read is abstracted by
the trace; the `on_poll` hook is effect-free here (its failures are
swallowed by the source).  `baseline` suppression, the keyword
interruption check, Python string truthiness and the stability-deadline
bookkeeping follow the source line by line. -/

structure Poll where
  t1 : ℚ
  t2 : ℚ
  t3 : ℚ
  txt : Option String
deriving DecidableEq

structure WaitCfg where
  baseline : Option String
  deadline : ℚ
  stable_s : ℚ
  keywords : List String
deriving DecidableEq

/-- Python truthiness of `txt` (`None` and `""` are falsy). -/
def truthy : Option String → Bool
  | none => false
  | some s => if s = "" then false else true

/-- `if baseline_text is not None and txt == baseline_text: txt = None`. -/
def supprRaw (cfg : WaitCfg) (o : Option String) : Option String :=
  if cfg.baseline ≠ none ∧ o = cfg.baseline then none else o

/-- The baseline-suppressed observation of a poll when truthy, else `none`. -/
def supprT (cfg : WaitCfg) (p : Poll) : Option String :=
  if truthy (supprRaw cfg p.txt) = true then supprRaw cfg p.txt else none

/-- `blob = (txt or "").lower()`. -/
def waitBlob (o : Option String) : String := pyLower (o.getD "")

/-- `any(str(k).lower() in blob for k in interruption_keywords)`. -/
def kwHit (keywords : List String) (blob : String) : Bool :=
  keywords.any (fun k => strIn blob (pyLower k))

inductive WaitOutcome
  | timeout
  | interrupted
  | reply (v : String)
  | exhausted
deriving DecidableEq

inductive WaitStep
  | stop (o : WaitOutcome)
  | cont (last : Option String) (sd : Option ℚ)
deriving DecidableEq

/-- `if txt and txt != last: last = txt`. -/
def waitNewLast (txt last : Option String) : Option String :=
  if truthy txt = true ∧ txt ≠ last then txt else last

/-- `if txt and txt != last: stable_deadline = loop.time() + stable_s`. -/
def waitNewSd (cfg : WaitCfg) (p : Poll) (txt last : Option String) (sd : Option ℚ) :
    Option ℚ :=
  if truthy txt = true ∧ txt ≠ last then some (p.t2 + cfg.stable_s) else sd

/-- `stable_deadline is not None and loop.time() >= stable_deadline`. -/
def sdReady (sd : Option ℚ) (t3 : ℚ) : Bool :=
  match sd with
  | some d => decide (d ≤ t3)
  | none => false

/-- One iteration of the reply-wait loop: deadline check, observation,
baseline suppression, keyword interruption, timer restart, stability
check with return, else continue with the updated state. -/
def waitStep (cfg : WaitCfg) (p : Poll) (last : Option String) (sd : Option ℚ) : WaitStep :=
  if cfg.deadline ≤ p.t1 then .stop .timeout
  else if kwHit cfg.keywords (waitBlob (supprRaw cfg p.txt)) = true then .stop .interrupted
  else if truthy (supprRaw cfg p.txt) = true ∧
      sdReady (waitNewSd cfg p (supprRaw cfg p.txt) last sd) p.t3 = true then
    .stop (.reply ((supprRaw cfg p.txt).getD ""))
  else
    .cont (waitNewLast (supprRaw cfg p.txt) last)
      (waitNewSd cfg p (supprRaw cfg p.txt) last sd)

/-- The reply-wait loop over a trace of polls, threading `last` and the
stability deadline; a trace exhausted without any terminating event yields
`exhausted` (the source loops forever, so an infinite behaviour is cut off
by the finite trace). -/
def runWaitFrom (cfg : WaitCfg) : List Poll → Option String → Option ℚ → WaitOutcome
  | [], _, _ => .exhausted
  | p :: rest, last, sd =>
      match waitStep cfg p last sd with
      | .stop o => o
      | .cont last2 sd2 => runWaitFrom cfg rest last2 sd2

/-- `wait_for_assistant_reply` on a trace. -/
def wait_for_assistant_reply (cfg : WaitCfg) (polls : List Poll) : WaitOutcome :=
  runWaitFrom cfg polls none none

/-- The returned value was observed at some poll `i` (differing from the
baseline), re-observed at the returning poll `j` at least `stable_s` after
the timer restart at `i`, and every truthy suppressed observation between
`i` and `j` equals it. -/
def StableWindow (cfg : WaitCfg) (polls : List Poll) (v : String) : Prop :=
  ∃ i j pi pj, i ≤ j ∧ polls.get? i = some pi ∧ polls.get? j = some pj ∧
    supprT cfg pi = some v ∧ supprT cfg pj = some v ∧
    pi.t2 + cfg.stable_s ≤ pj.t3 ∧ pj.txt = some v ∧
    ∀ k q s, i ≤ k → k ≤ j → polls.get? k = some q → supprT cfg q = some s → s = v

/-- Variant of the window relative to a stability deadline `d` already
armed on entry to the trace. -/
def TailWindow (cfg : WaitCfg) (polls : List Poll) (v : String) (d : ℚ) : Prop :=
  ∃ j pj, polls.get? j = some pj ∧ supprT cfg pj = some v ∧ d ≤ pj.t3 ∧
    pj.txt = some v ∧
    ∀ k q s, k ≤ j → polls.get? k = some q → supprT cfg q = some s → s = v

/-- C1 counterexample: a poll observing a text that contains an
interruption keyword makes the wait raise the interruption error, not
Timeout, although nothing stabilized before the deadline. -/
theorem wait_reply_counterexample :
    wait_for_assistant_reply
      ⟨some "base", 10, 6 / 5, ["challenge", "verify", "captcha"]⟩
      [⟨0, 0, 0, some "please solve the captcha"⟩] = .interrupted ∧
    WaitOutcome.interrupted ≠ WaitOutcome.timeout := by
  constructor
  · decide
  · decide

lemma truthy_some {o : Option String} (h : truthy o = true) : ∃ s, o = some s ∧ s ≠ "" := by
  cases o with
  | none => simp [truthy] at h
  | some s =>
      by_cases he : s = ""
      · simp [truthy, he] at h
      · exact ⟨s, rfl, he⟩

lemma truthy_of_some_ne {s : String} (h : s ≠ "") (o : Option String) (ho : o = some s) :
    truthy o = true := by
  rw [ho]
  simp [truthy, h]

lemma sdReady_some {sd : Option ℚ} {t3 : ℚ} (h : sdReady sd t3 = true) :
    ∃ d, sd = some d ∧ d ≤ t3 := by
  cases sd with
  | none => simp [sdReady] at h
  | some d => exact ⟨d, rfl, by simpa [sdReady] using h⟩

lemma supprRaw_eq_some {cfg : WaitCfg} {o : Option String} {v : String}
    (h : supprRaw cfg o = some v) : o = some v := by
  unfold supprRaw at h
  by_cases hc : cfg.baseline ≠ none ∧ o = cfg.baseline
  · rw [if_pos hc] at h; cases h
  · rw [if_neg hc] at h; exact h

lemma supprRaw_ne_baseline {cfg : WaitCfg} {o : Option String} {v b : String}
    (hb : cfg.baseline = some b) (h : supprRaw cfg o = some v) : v ≠ b := by
  unfold supprRaw at h
  by_cases hc : cfg.baseline ≠ none ∧ o = cfg.baseline
  · rw [if_pos hc] at h; cases h
  · rw [if_neg hc] at h
    intro hv
    subst hv
    refine hc ⟨by rw [hb]; simp, ?_⟩
    rw [hb, h]

lemma supprT_inv {cfg : WaitCfg} {p : Poll} {v : String} (h : supprT cfg p = some v) :
    supprRaw cfg p.txt = some v ∧ v ≠ "" ∧ p.txt = some v := by
  unfold supprT at h
  by_cases ht : truthy (supprRaw cfg p.txt) = true
  · rw [if_pos ht] at h
    obtain ⟨s, hs, hne⟩ := truthy_some ht
    have hsv : s = v := by rw [hs] at h; injection h
    subst hsv
    exact ⟨h, hne, supprRaw_eq_some h⟩
  · rw [if_neg ht] at h; cases h

lemma supprT_of_raw {cfg : WaitCfg} {p : Poll} {v : String}
    (h : supprRaw cfg p.txt = some v) (hv : v ≠ "") : supprT cfg p = some v := by
  unfold supprT
  rw [if_pos (truthy_of_some_ne hv _ h)]
  exact h

lemma waitStep_of_deadline {cfg : WaitCfg} {p : Poll} {last : Option String}
    {sd : Option ℚ} (h : cfg.deadline ≤ p.t1) :
    waitStep cfg p last sd = .stop .timeout := by
  unfold waitStep
  rw [if_pos h]

lemma waitStep_timeout_inv {cfg : WaitCfg} {p : Poll} {last : Option String}
    {sd : Option ℚ} (h : waitStep cfg p last sd = .stop .timeout) :
    cfg.deadline ≤ p.t1 := by
  by_cases h1 : cfg.deadline ≤ p.t1
  · exact h1
  · unfold waitStep at h
    rw [if_neg h1] at h
    by_cases h2 : kwHit cfg.keywords (waitBlob (supprRaw cfg p.txt)) = true
    · rw [if_pos h2] at h; simp at h
    · rw [if_neg h2] at h
      by_cases h3 : truthy (supprRaw cfg p.txt) = true ∧
          sdReady (waitNewSd cfg p (supprRaw cfg p.txt) last sd) p.t3 = true
      · rw [if_pos h3] at h; simp at h
      · rw [if_neg h3] at h; simp at h

lemma waitStep_ne_stop_exhausted {cfg : WaitCfg} {p : Poll} {last : Option String}
    {sd : Option ℚ} : waitStep cfg p last sd ≠ .stop .exhausted := by
  unfold waitStep
  by_cases h1 : cfg.deadline ≤ p.t1
  · rw [if_pos h1]; simp
  · rw [if_neg h1]
    by_cases h2 : kwHit cfg.keywords (waitBlob (supprRaw cfg p.txt)) = true
    · rw [if_pos h2]; simp
    · rw [if_neg h2]
      by_cases h3 : truthy (supprRaw cfg p.txt) = true ∧
          sdReady (waitNewSd cfg p (supprRaw cfg p.txt) last sd) p.t3 = true
      · rw [if_pos h3]; simp
      · rw [if_neg h3]; simp

lemma waitStep_reply_inv {cfg : WaitCfg} {p : Poll} {last : Option String}
    {sd : Option ℚ} {v : String} (h : waitStep cfg p last sd = .stop (.reply v)) :
    supprT cfg p = some v ∧ p.txt = some v ∧
    ((supprRaw cfg p.txt ≠ last ∧ p.t2 + cfg.stable_s ≤ p.t3) ∨
      (supprRaw cfg p.txt = last ∧ ∃ d, sd = some d ∧ d ≤ p.t3)) := by
  unfold waitStep at h
  by_cases h1 : cfg.deadline ≤ p.t1
  · rw [if_pos h1] at h; simp at h
  rw [if_neg h1] at h
  by_cases h2 : kwHit cfg.keywords (waitBlob (supprRaw cfg p.txt)) = true
  · rw [if_pos h2] at h; simp at h
  rw [if_neg h2] at h
  by_cases h3 : truthy (supprRaw cfg p.txt) = true ∧
      sdReady (waitNewSd cfg p (supprRaw cfg p.txt) last sd) p.t3 = true
  · rw [if_pos h3] at h
    obtain ⟨ht, hr⟩ := h3
    obtain ⟨s, hs, hne⟩ := truthy_some ht
    have hgv : (supprRaw cfg p.txt).getD "" = v := by
      simp only [WaitStep.stop.injEq, WaitOutcome.reply.injEq] at h
      exact h
    have hsv : s = v := by rw [hs] at hgv; simpa using hgv
    subst hsv
    have hraw : supprRaw cfg p.txt = some s := hs
    refine ⟨supprT_of_raw hraw hne, supprRaw_eq_some hraw, ?_⟩
    by_cases hreset : truthy (supprRaw cfg p.txt) = true ∧ supprRaw cfg p.txt ≠ last
    · left
      refine ⟨hreset.2, ?_⟩
      unfold waitNewSd at hr
      rw [if_pos hreset] at hr
      obtain ⟨d, hd, hd3⟩ := sdReady_some hr
      have : d = p.t2 + cfg.stable_s := by injection hd.symm
      rw [this] at hd3
      exact hd3
    · right
      have heq : supprRaw cfg p.txt = last := by
        by_contra hne2
        exact hreset ⟨ht, hne2⟩
      unfold waitNewSd at hr
      rw [if_neg hreset] at hr
      exact ⟨heq, sdReady_some hr⟩
  · rw [if_neg h3] at h; simp at h

lemma waitStep_cont_inv {cfg : WaitCfg} {p : Poll} {last last2 : Option String}
    {sd sd2 : Option ℚ} (h : waitStep cfg p last sd = .cont last2 sd2) :
    ¬ cfg.deadline ≤ p.t1 ∧
    last2 = waitNewLast (supprRaw cfg p.txt) last ∧
    sd2 = waitNewSd cfg p (supprRaw cfg p.txt) last sd ∧
    ¬ (truthy (supprRaw cfg p.txt) = true ∧ sdReady sd2 p.t3 = true) := by
  unfold waitStep at h
  by_cases h1 : cfg.deadline ≤ p.t1
  · rw [if_pos h1] at h; simp at h
  rw [if_neg h1] at h
  by_cases h2 : kwHit cfg.keywords (waitBlob (supprRaw cfg p.txt)) = true
  · rw [if_pos h2] at h; simp at h
  rw [if_neg h2] at h
  by_cases h3 : truthy (supprRaw cfg p.txt) = true ∧
      sdReady (waitNewSd cfg p (supprRaw cfg p.txt) last sd) p.t3 = true
  · rw [if_pos h3] at h; simp at h
  · rw [if_neg h3] at h
    have hl : last2 = waitNewLast (supprRaw cfg p.txt) last := by
      simp only [WaitStep.cont.injEq] at h
      exact h.1.symm
    have hsd : sd2 = waitNewSd cfg p (supprRaw cfg p.txt) last sd := by
      simp only [WaitStep.cont.injEq] at h
      exact h.2.symm
    refine ⟨h1, hl, hsd, ?_⟩
    rw [hsd]
    exact h3

lemma runWaitFrom_cons_stop {cfg : WaitCfg} {p : Poll} {rest : List Poll}
    {last : Option String} {sd : Option ℚ} {o : WaitOutcome}
    (hs : waitStep cfg p last sd = .stop o) :
    runWaitFrom cfg (p :: rest) last sd = o := by
  rw [runWaitFrom, hs]

lemma runWaitFrom_cons_cont {cfg : WaitCfg} {p : Poll} {rest : List Poll}
    {last last2 : Option String} {sd sd2 : Option ℚ}
    (hs : waitStep cfg p last sd = .cont last2 sd2) :
    runWaitFrom cfg (p :: rest) last sd = runWaitFrom cfg rest last2 sd2 := by
  rw [runWaitFrom, hs]

lemma runWaitFrom_reply_window (cfg : WaitCfg) :
    ∀ (polls : List Poll) (last : Option String) (sd : Option ℚ) (v : String),
      runWaitFrom cfg polls last sd = .reply v →
      StableWindow cfg polls v ∨
      (∃ d, sd = some d ∧ last = some v ∧ TailWindow cfg polls v d) := by
  intro polls
  induction polls with
  | nil =>
      intro last sd v h
      rw [runWaitFrom] at h
      simp at h
  | cons p rest ih =>
      intro last sd v h
      cases hs : waitStep cfg p last sd with
      | stop o =>
          rw [runWaitFrom_cons_stop hs] at h
          subst h
          obtain ⟨hsT, hptxt, hdisj⟩ := waitStep_reply_inv hs
          rcases hdisj with ⟨hne, hwin⟩ | ⟨heq, d, hsd, hd3⟩
          · left
            refine ⟨0, 0, p, p, le_refl 0, rfl, rfl, hsT, hsT, hwin, hptxt, ?_⟩
            intro k q s _ hk2 hq hsq
            have hk0 : k = 0 := Nat.le_zero.mp hk2
            subst hk0
            have hqp : q = p := by
              rw [List.get?_cons_zero] at hq
              injection hq with h'
              exact h'.symm
            subst hqp
            rw [hsT] at hsq
            injection hsq with h'
            exact h'.symm
          · right
            have hlastv : last = some v := by
              have h1 := (supprT_inv hsT).1
              rw [heq] at h1
              exact h1
            refine ⟨d, hsd, hlastv, 0, p, rfl, hsT, hd3, hptxt, ?_⟩
            intro k q s hk2 hq hsq
            have hk0 : k = 0 := Nat.le_zero.mp hk2
            subst hk0
            have hqp : q = p := by
              rw [List.get?_cons_zero] at hq
              injection hq with h'
              exact h'.symm
            subst hqp
            rw [hsT] at hsq
            injection hsq with h'
            exact h'.symm
      | cont last2 sd2 =>
          rw [runWaitFrom_cons_cont hs] at h
          obtain ⟨hnd, hl2, hs2, hnret⟩ := waitStep_cont_inv hs
          rcases ih last2 sd2 v h with hwin | ⟨d, hd, hlast2, htail⟩
          · left
            obtain ⟨i, j, pi, pj, hij, hgi, hgj, hsi, hsj, hw, hpj, hall⟩ := hwin
            refine ⟨i + 1, j + 1, pi, pj, by omega, ?_, ?_, hsi, hsj, hw, hpj, ?_⟩
            · rw [List.get?_cons_succ]; exact hgi
            · rw [List.get?_cons_succ]; exact hgj
            · intro k q s hk1 hk2 hq hsq
              cases k with
              | zero => omega
              | succ k' =>
                  rw [List.get?_cons_succ] at hq
                  exact hall k' q s (by omega) (by omega) hq hsq
          · by_cases hreset : truthy (supprRaw cfg p.txt) = true ∧ supprRaw cfg p.txt ≠ last
            · left
              have hl2' : last2 = supprRaw cfg p.txt := by
                rw [hl2]
                unfold waitNewLast
                rw [if_pos hreset]
              have hs2' : sd2 = some (p.t2 + cfg.stable_s) := by
                rw [hs2]
                unfold waitNewSd
                rw [if_pos hreset]
              have hsup : supprRaw cfg p.txt = some v := by
                rw [← hl2']
                exact hlast2
              have hd' : d = p.t2 + cfg.stable_s := by
                rw [hs2'] at hd
                injection hd with h'
                exact h'.symm
              obtain ⟨j, pj, hgj, hsj, hd3, hpj, hall⟩ := htail
              have hsTp : supprT cfg p = some v := by
                unfold supprT
                rw [if_pos hreset.1]
                exact hsup
              refine ⟨0, j + 1, p, pj, by omega, rfl, ?_, hsTp, hsj, ?_, hpj, ?_⟩
              · rw [List.get?_cons_succ]; exact hgj
              · rw [← hd']; exact hd3
              · intro k q s _ hk2 hq hsq
                cases k with
                | zero =>
                    have hqp : q = p := by
                      rw [List.get?_cons_zero] at hq
                      injection hq with h'
                      exact h'.symm
                    subst hqp
                    rw [hsTp] at hsq
                    injection hsq with h'
                    exact h'.symm
                | succ k' =>
                    rw [List.get?_cons_succ] at hq
                    exact hall k' q s (by omega) hq hsq
            · right
              have hl2' : last2 = last := by
                rw [hl2]
                unfold waitNewLast
                rw [if_neg hreset]
              have hs2' : sd2 = sd := by
                rw [hs2]
                unfold waitNewSd
                rw [if_neg hreset]
              have hlastv : last = some v := by
                rw [← hl2']
                exact hlast2
              refine ⟨d, by rw [← hs2']; exact hd, hlastv, ?_⟩
              obtain ⟨j, pj, hgj, hsj, hd3, hpj, hall⟩ := htail
              refine ⟨j + 1, pj, ?_, hsj, hd3, hpj, ?_⟩
              · rw [List.get?_cons_succ]; exact hgj
              · intro k q s hk2 hq hsq
                cases k with
                | zero =>
                    have hq0 : some p = some q := hq
                    have hqp : p = q := by injection hq0
                    subst hqp
                    obtain ⟨hsup, hneq, hptxt⟩ := supprT_inv hsq
                    have htr : truthy (supprRaw cfg p.txt) = true :=
                      truthy_of_some_ne hneq _ hsup
                    have hle : supprRaw cfg p.txt = last := by
                      by_contra hnel
                      exact hreset ⟨htr, hnel⟩
                    rw [hle, hlastv] at hsup
                    injection hsup with h'
                    exact h'.symm
                | succ k' =>
                    rw [List.get?_cons_succ] at hq
                    exact hall k' q s (by omega) hq hsq

lemma runWaitFrom_timeout_at (cfg : WaitCfg) :
    ∀ (polls : List Poll) (last : Option String) (sd : Option ℚ),
      runWaitFrom cfg polls last sd = .timeout →
      ∃ j p, polls.get? j = some p ∧ cfg.deadline ≤ p.t1 := by
  intro polls
  induction polls with
  | nil =>
      intro last sd h
      rw [runWaitFrom] at h
      simp at h
  | cons p rest ih =>
      intro last sd h
      cases hs : waitStep cfg p last sd with
      | stop o =>
          rw [runWaitFrom_cons_stop hs] at h
          subst h
          exact ⟨0, p, rfl, waitStep_timeout_inv hs⟩
      | cont l2 s2 =>
          rw [runWaitFrom_cons_cont hs] at h
          obtain ⟨j, q, hq, hd⟩ := ih l2 s2 h
          exact ⟨j + 1, q, by rw [List.get?_cons_succ]; exact hq, hd⟩

lemma runWaitFrom_ne_exhausted (cfg : WaitCfg) :
    ∀ (polls : List Poll) (last : Option String) (sd : Option ℚ),
      (∃ j p, polls.get? j = some p ∧ cfg.deadline ≤ p.t1) →
      runWaitFrom cfg polls last sd ≠ .exhausted := by
  intro polls
  induction polls with
  | nil =>
      intro last sd hex _
      obtain ⟨j, p, hp, _⟩ := hex
      cases j <;> simp at hp
  | cons p rest ih =>
      intro last sd hex hrun
      obtain ⟨j, q, hq, hdq⟩ := hex
      cases hs : waitStep cfg p last sd with
      | stop o =>
          rw [runWaitFrom_cons_stop hs] at hrun
          subst hrun
          exact waitStep_ne_stop_exhausted hs
      | cont l2 s2 =>
          rw [runWaitFrom_cons_cont hs] at hrun
          cases j with
          | zero =>
              have hqp : q = p := by
                rw [List.get?_cons_zero] at hq
                injection hq with h'
                exact h'.symm
              subst hqp
              rw [waitStep_of_deadline hdq] at hs
              simp at hs
          | succ j' =>
              rw [List.get?_cons_succ] at hq
              exact ih l2 s2 ⟨j', q, hq, hdq⟩ hrun

/-- C1 (amended): with a non-null baseline, whenever the reply wait
returns a value v, v is the observed last assistant-role message text at
the returning poll, non-empty and different from the baseline, and the
trace contains a stability window: a poll where v was (re)observed as
new, a returning poll whose stability-check time is at least `stable_s`
after that restart, and no differing truthy observation in between.  A
Timeout is raised only at a poll whose deadline-check time is at or after
the deadline, and a trace reaching the deadline always terminates the
loop (with Timeout, the reply, or the keyword-interruption error — the
last replacing Timeout, which the original claim did not allow). -/
theorem wait_reply_amended (cfg : WaitCfg) (polls : List Poll) (b : String)
    (hb : cfg.baseline = some b) :
    (∀ v, wait_for_assistant_reply cfg polls = .reply v →
      v ≠ "" ∧ v ≠ b ∧ StableWindow cfg polls v) ∧
    (wait_for_assistant_reply cfg polls = .timeout →
      ∃ j p, polls.get? j = some p ∧ cfg.deadline ≤ p.t1) ∧
    ((∃ j p, polls.get? j = some p ∧ cfg.deadline ≤ p.t1) →
      wait_for_assistant_reply cfg polls ≠ .exhausted) := by
  refine ⟨?_, ?_, ?_⟩
  · intro v h
    rcases runWaitFrom_reply_window cfg polls none none v h with hwin | ⟨d, hd, _, _⟩
    · obtain ⟨i, j, pi, pj, hij, hgi, hgj, hsi, hsj, hw, hpj, hall⟩ := hwin
      have hinv := supprT_inv hsj
      exact ⟨hinv.2.1, supprRaw_ne_baseline hb hinv.1,
        ⟨i, j, pi, pj, hij, hgi, hgj, hsi, hsj, hw, hpj, hall⟩⟩
    · cases hd
  · exact runWaitFrom_timeout_at cfg polls none none
  · exact runWaitFrom_ne_exhausted cfg polls none none

/-- Witness for C1: a reply that appears at poll 0 and is re-observed
unchanged at poll 1, past the 2-second stability window. -/
theorem wait_reply_amended_witness :
    "hello" ≠ "" ∧ "hello" ≠ "base" ∧
    StableWindow ⟨some "base", 100, 2, ["challenge", "verify", "captcha"]⟩
      [⟨0, 0, 0, some "hello"⟩, ⟨5, 5, 5, some "hello"⟩] "hello" :=
  (wait_reply_amended ⟨some "base", 100, 2, ["challenge", "verify", "captcha"]⟩
    [⟨0, 0, 0, some "hello"⟩, ⟨5, 5, 5, some "hello"⟩] "base" rfl).1 "hello"
    (by norm_num +decide [wait_for_assistant_reply, runWaitFrom, waitStep, supprRaw,
      waitBlob, kwHit, truthy, waitNewLast, waitNewSd, sdReady, pyLower, charLower,
      strIn, seqIn, seqStarts])

/-! ## C4, C9 — flow interpreter (`flow.py`)

JSON values are embedded as `JVal` (numbers as rationals).  The
`FlowRunner` collaborator is abstracted as an effect list plus an oracle
supplying the text returned by `wait_for_text` / `extract_text` at each
step index; its operations always succeed in the model (their failures are
external to the claims).  Events (`flow.step.start` / `flow.step.end`) and
runner calls are interleaved in one ordered trace.  Python's numeric
stringification and its bool-is-int quirk in number positions are not
modelled; no flow of the repository exercises them. -/

inductive JVal
  | str (s : String)
  | num (q : ℚ)
  | boolean (b : Bool)
  | null
  | arr (xs : List JVal)
  | obj (fields : List (String × JVal))

/-- First binding of `k` (contexts built by `ctxSet` have unique keys). -/
def objGet (fields : List (String × JVal)) (k : String) : Option JVal :=
  fields.findSome? (fun kv => if kv.1 = k then some kv.2 else none)

/-- `step.get(field)`. -/
def jGet (v : JVal) (k : String) : Option JVal :=
  match v with
  | .obj fields => objGet fields k
  | _ => none

/-- `ctx[k] = v` on the insertion-ordered mapping. -/
def ctxSet (ctx : List (String × JVal)) (k : String) (v : JVal) : List (String × JVal) :=
  match ctx with
  | [] => [(k, v)]
  | (k', v') :: rest => if k' = k then (k, v) :: rest else (k', v') :: ctxSet rest k v

/-- `ctx.get(k)`. -/
def ctxGet (ctx : List (String × JVal)) (k : String) : Option JVal := objGet ctx k

/-- Python truthiness of a JSON value. -/
def jFalsy : JVal → Bool
  | .null => true
  | .boolean b => !b
  | .num q => decide (q = 0)
  | .str s => decide (s = "")
  | .arr xs => xs.isEmpty
  | .obj fields => fields.isEmpty

/-- `"" if v is None else str(v)` for template substitution; the numeric
and container cases approximate Python's repr (no repository flow
templates a non-scalar). -/
def jToStr : JVal → String
  | .str s => s
  | .null => ""
  | .boolean b => if b then "True" else "False"
  | .num q => toString q
  | .arr _ => "[...]"
  | .obj _ => "{...}"

/-- `[a-zA-Z_]` — the first character of a template identifier. -/
def identStart (c : Char) : Bool := c.isAlpha || c = '_'

/-- `[a-zA-Z0-9_]`. -/
def identChar (c : Char) : Bool := c.isAlphanum || c = '_'

def lbrace : Char := Char.ofNat 123

def rbrace : Char := Char.ofNat 125

/-- Attempt to match the template pattern (two opening braces, optional
whitespace, an identifier, optional whitespace, two closing braces) at the
head of the character list; returns the identifier and the remainder. -/
def matchTemplate (cs : List Char) : Option (String × List Char) :=
  match cs with
  | c1 :: c2 :: rest =>
      if c1 = lbrace ∧ c2 = lbrace then
        match rest.dropWhile wsChar with
        | c :: rest2 =>
            if identStart c then
              match (rest2.dropWhile identChar).dropWhile wsChar with
              | d1 :: d2 :: rest4 =>
                  if d1 = rbrace ∧ d2 = rbrace then
                    some (String.mk (c :: rest2.takeWhile identChar), rest4)
                  else none
              | _ => none
            else none
        | [] => none
      else none
  | _ => none

inductive FlowErr
  | unknownVar (name : String)
  | spec (idx : Nat) (what : String)
deriving DecidableEq

lemma length_dropWhile_le' (p : Char → Bool) (l : List Char) :
    (l.dropWhile p).length ≤ l.length := by
  induction l with
  | nil => simp
  | cons a t ih =>
      rw [List.dropWhile_cons]
      by_cases hp : p a
      · rw [if_pos hp]
        exact le_trans ih (Nat.le_succ _)
      · rw [if_neg hp]

lemma matchTemplate_shrinks {cs : List Char} {name : String} {rest : List Char}
    (h : matchTemplate cs = some (name, rest)) : rest.length < cs.length := by
  unfold matchTemplate at h
  match cs with
  | [] => cases h
  | [c1] => cases h
  | c1 :: c2 :: tail =>
      simp only at h
      by_cases hb : c1 = lbrace ∧ c2 = lbrace
      · rw [if_pos hb] at h
        cases hdw : tail.dropWhile wsChar with
        | nil => rw [hdw] at h; dsimp only at h; cases h
        | cons c rest2 =>
            rw [hdw] at h
            dsimp only at h
            by_cases hid : identStart c
            · rw [if_pos hid] at h
              cases hdw2 : (rest2.dropWhile identChar).dropWhile wsChar with
              | nil => rw [hdw2] at h; dsimp only at h; cases h
              | cons d1 tail2 =>
                  cases tail2 with
                  | nil => rw [hdw2] at h; dsimp only at h; cases h
                  | cons d2 rest4 =>
                      rw [hdw2] at h
                      dsimp only at h
                      by_cases hrb : d1 = rbrace ∧ d2 = rbrace
                      · rw [if_pos hrb] at h
                        have hr : rest = rest4 := by
                          injection h with h'
                          injection h' with h1 h2
                          exact h2.symm
                        subst hr
                        have l1 : rest.length + 2 ≤
                            ((rest2.dropWhile identChar).dropWhile wsChar).length := by
                          rw [hdw2]; simp
                        have l2 : ((rest2.dropWhile identChar).dropWhile wsChar).length ≤
                            rest2.length :=
                          le_trans (length_dropWhile_le' _ _)
                            (length_dropWhile_le' _ _)
                        have l3 : rest2.length + 1 ≤ (tail.dropWhile wsChar).length := by
                          rw [hdw]; simp
                        have l4 : (tail.dropWhile wsChar).length ≤ tail.length :=
                          length_dropWhile_le' _ _
                        simp only [List.length_cons]
                        omega
                      · rw [if_neg hrb] at h; cases h
            · rw [if_neg hid] at h; cases h
      · rw [if_neg hb] at h
        cases h

/-- Mirror of `render_template`'s `_TEMPLATE_RE.sub(_sub, s)` scan: at each
position try the template pattern; a match substitutes the bound value
(raising on an unbound name, which aborts the whole render with no partial
result observable), a non-match copies one character.  The fuel bound is
always sufficient since every step consumes at least one character
(`matchTemplate_shrinks`); it keeps the recursion structural. -/
def renderChars (vars : List (String × JVal)) : Nat → List Char → Except FlowErr (List Char)
  | 0, _ => .ok []
  | _ + 1, [] => .ok []
  | fuel + 1, c :: cs =>
      match matchTemplate (c :: cs) with
      | some (name, rest) =>
          match ctxGet vars name with
          | none => .error (.unknownVar name)
          | some v =>
              match renderChars vars fuel rest with
              | .error e => .error e
              | .ok tail => .ok ((jToStr v).toList ++ tail)
      | none =>
          match renderChars vars fuel cs with
          | .error e => .error e
          | .ok tail => .ok (c :: tail)

/-- Mirror of `render_template`. -/
def render_template (s : String) (vars : List (String × JVal)) : Except FlowErr String :=
  match renderChars vars (s.toList.length + 1) s.toList with
  | .error e => .error e
  | .ok cs => .ok (String.mk cs)

mutual

/-- Mirror of `render_obj`: recursively render templates in strings inside
JSON-ish objects; keys are not rendered. -/
def render_obj (vars : List (String × JVal)) : JVal → Except FlowErr JVal
  | .str s =>
      match render_template s vars with
      | .error e => .error e
      | .ok t => .ok (.str t)
  | .num q => .ok (.num q)
  | .boolean b => .ok (.boolean b)
  | .null => .ok .null
  | .arr xs =>
      match render_objList vars xs with
      | .error e => .error e
      | .ok ys => .ok (.arr ys)
  | .obj fields =>
      match render_objFields vars fields with
      | .error e => .error e
      | .ok fs => .ok (.obj fs)

def render_objList (vars : List (String × JVal)) : List JVal → Except FlowErr (List JVal)
  | [] => .ok []
  | x :: xs =>
      match render_obj vars x with
      | .error e => .error e
      | .ok y =>
          match render_objList vars xs with
          | .error e => .error e
          | .ok ys => .ok (y :: ys)

def render_objFields (vars : List (String × JVal)) :
    List (String × JVal) → Except FlowErr (List (String × JVal))
  | [] => .ok []
  | (k, x) :: fs =>
      match render_obj vars x with
      | .error e => .error e
      | .ok y =>
          match render_objFields vars fs with
          | .error e => .error e
          | .ok ys => .ok ((k, y) :: ys)

end

inductive ActEffect
  | navigate (url : String)
  | click (selector : String) (within : Option String)
  | typeInto (selector : String) (text : String) (within : Option String)
      (clickFirst : Bool) (pressEnter : Bool) (postClickDelay : Option ℚ)
  | pressKey (key : String)
  | sleepFor (seconds : ℚ)
  | waitForSelector (selector : String) (within : Option String) (timeout : Option ℚ)
  | waitForText (selector : String) (contains : String) (within : Option String)
      (timeout : Option ℚ) (poll : Option ℚ)
  | extractText (selector : String) (within : Option String) (timeout : Option ℚ)
deriving DecidableEq

inductive FlowEffect
  | stepStart (i : Nat) (action : String)
  | stepEnd (i : Nat) (action : String)
  | act (e : ActEffect)
deriving DecidableEq

/-- Required non-empty string field. -/
def reqStr (step : JVal) (idx : Nat) (field what : String) : Except FlowErr String :=
  match jGet step field with
  | some (.str s) => if s = "" then .error (.spec idx what) else .ok s
  | _ => .error (.spec idx what)

/-- Optional `within` scope: absent or null is none; otherwise a non-empty
string is required. -/
def optWithin (step : JVal) (idx : Nat) (what : String) : Except FlowErr (Option String) :=
  match jGet step "within" with
  | none => .ok none
  | some .null => .ok none
  | some (.str w) => if w = "" then .error (.spec idx what) else .ok (some w)
  | some _ => .error (.spec idx what)

/-- Optional numeric field: absent or null is none; otherwise a number. -/
def optNum (step : JVal) (idx : Nat) (field what : String) : Except FlowErr (Option ℚ) :=
  match jGet step field with
  | none => .ok none
  | some .null => .ok none
  | some (.num q) => .ok (some q)
  | some _ => .error (.spec idx what)

/-- Optional boolean field with a default (absent uses the default; null or
a non-boolean is an error, matching the isinstance check). -/
def boolField (step : JVal) (idx : Nat) (field : String) (dflt : Bool) (what : String) :
    Except FlowErr Bool :=
  match jGet step field with
  | none => .ok dflt
  | some (.boolean b) => .ok b
  | some _ => .error (.spec idx what)

/-- `type`'s `text` field: absent/null render as `""` via `(text or "")`;
a present non-string is an error. -/
def textField (step : JVal) (idx : Nat) (what : String) : Except FlowErr String :=
  match jGet step "text" with
  | none => .ok ""
  | some .null => .ok ""
  | some (.str t) => .ok t
  | some _ => .error (.spec idx what)

/-- The per-action dispatch of `run_flow`'s loop body: validates the
rendered step's fields, returns the updated context and the runner calls
issued, or the `FlowSpecError` raised before any call. -/
def execAction (oracle : Nat → String) (idx : Nat) (a : String) (step : JVal)
    (ctx : List (String × JVal)) :
    Except FlowErr (List (String × JVal) × List ActEffect) :=
  if a = "navigate" then
    match reqStr step idx "url" "navigate requires url" with
    | .error e => .error e
    | .ok url => .ok (ctx, [.navigate url])
  else if a = "click" then
    match reqStr step idx "selector" "click requires selector" with
    | .error e => .error e
    | .ok sel =>
        match optWithin step idx "click within must be a non-empty string" with
        | .error e => .error e
        | .ok w => .ok (ctx, [.click sel w])
  else if a = "type" then
    match reqStr step idx "selector" "type requires selector" with
    | .error e => .error e
    | .ok sel =>
        match textField step idx "type text must be a string or null" with
        | .error e => .error e
        | .ok text =>
            match optWithin step idx "type within must be a non-empty string" with
            | .error e => .error e
            | .ok w =>
                match boolField step idx "click_first" true
                    "type click_first must be a boolean" with
                | .error e => .error e
                | .ok cf =>
                    match boolField step idx "press_enter" false
                        "type press_enter must be a boolean" with
                    | .error e => .error e
                    | .ok pe =>
                        match optNum step idx "post_click_delay_s"
                            "type post_click_delay_s must be a number" with
                        | .error e => .error e
                        | .ok pcd => .ok (ctx, [.typeInto sel text w cf pe pcd])
  else if a = "press" then
    match reqStr step idx "key" "press requires key" with
    | .error e => .error e
    | .ok key => .ok (ctx, [.pressKey key])
  else if a = "sleep" then
    match jGet step "seconds" with
    | some (.num q) => .ok (ctx, [.sleepFor q])
    | _ => .error (.spec idx "sleep requires seconds")
  else if a = "wait_for_selector" then
    match reqStr step idx "selector" "wait_for_selector requires selector" with
    | .error e => .error e
    | .ok sel =>
        match optWithin step idx "wait_for_selector within must be a non-empty string" with
        | .error e => .error e
        | .ok w =>
            match optNum step idx "timeout_s" "wait_for_selector timeout_s must be a number" with
            | .error e => .error e
            | .ok ts => .ok (ctx, [.waitForSelector sel w ts])
  else if a = "wait_for_text" then
    match reqStr step idx "selector" "wait_for_text requires selector" with
    | .error e => .error e
    | .ok sel =>
        match reqStr step idx "contains" "wait_for_text requires contains" with
        | .error e => .error e
        | .ok contains =>
            match optWithin step idx "wait_for_text within must be a non-empty string" with
            | .error e => .error e
            | .ok w =>
                match optNum step idx "timeout_s" "wait_for_text timeout_s must be a number" with
                | .error e => .error e
                | .ok ts =>
                    match optNum step idx "poll_s" "wait_for_text poll_s must be a number" with
                    | .error e => .error e
                    | .ok ps =>
                        match jGet step "into" with
                        | none => .ok (ctx, [.waitForText sel contains w ts ps])
                        | some .null => .ok (ctx, [.waitForText sel contains w ts ps])
                        | some (.str into) =>
                            if into = "" then
                              .error (.spec idx "wait_for_text into must be a non-empty string")
                            else
                              .ok (ctxSet ctx into (.str (oracle idx)),
                                [.waitForText sel contains w ts ps])
                        | some _ =>
                            .error (.spec idx "wait_for_text into must be a non-empty string")
  else if a = "extract_text" then
    match reqStr step idx "selector" "extract_text requires selector" with
    | .error e => .error e
    | .ok sel =>
        match optWithin step idx "extract_text within must be a non-empty string" with
        | .error e => .error e
        | .ok w =>
            match optNum step idx "timeout_s" "extract_text timeout_s must be a number" with
            | .error e => .error e
            | .ok ts =>
                match jGet step "into" with
                | none =>
                    .ok (ctxSet ctx "result" (.str (oracle idx)), [.extractText sel w ts])
                | some (.str into) =>
                    if into = "" then
                      .error (.spec idx "extract_text into must be a non-empty string")
                    else
                      .ok (ctxSet ctx into (.str (oracle idx)), [.extractText sel w ts])
                | some _ =>
                    .error (.spec idx "extract_text into must be a non-empty string")
  else if a = "set" then
    match reqStr step idx "name" "set requires name" with
    | .error e => .error e
    | .ok name => .ok (ctxSet ctx name ((jGet step "value").getD .null), [])
  else
    .error (.spec idx "unknown action")

/-- One step of the loop body: the object check and templating happen
before the start event; the action string is validated before the start
event; the dispatch runs between the start and end events. -/
inductive StepOut
  | preErr (e : FlowErr)
  | actErr (a : String) (e : FlowErr)
  | okStep (a : String) (ctx2 : List (String × JVal)) (aeffs : List ActEffect)

def runStep (oracle : Nat → String) (idx : Nat) (ctx : List (String × JVal))
    (raw : JVal) : StepOut :=
  match raw with
  | .obj _ =>
      match render_obj ctx raw with
      | .error e => .preErr e
      | .ok step =>
          match jGet step "action" with
          | some (.str a0) =>
              if pyStrip a0 = "" then .preErr (.spec idx "missing action")
              else
                match execAction oracle idx (pyStrip a0) step ctx with
                | .error e => .actErr (pyStrip a0) e
                | .ok (ctx2, aeffs) => .okStep (pyStrip a0) ctx2 aeffs
          | _ => .preErr (.spec idx "missing action")
  | _ => .preErr (.spec idx "step must be an object")

/-- The step loop: a pre-step error emits nothing for that step; an action
error emits only the start event; a successful step emits start, the
runner calls, and end, then continues. -/
def runSteps (oracle : Nat → String) :
    List JVal → Nat → List (String × JVal) → List FlowEffect →
    List FlowEffect × Except FlowErr (List (String × JVal))
  | [], _, ctx, effs => (effs, .ok ctx)
  | raw :: rest, idx, ctx, effs =>
      match runStep oracle idx ctx raw with
      | .preErr e => (effs, .error e)
      | .actErr a e => (effs ++ [FlowEffect.stepStart idx a], .error e)
      | .okStep a ctx2 aeffs =>
          runSteps oracle rest (idx + 1) ctx2
            (effs ++ [FlowEffect.stepStart idx a] ++ aeffs.map FlowEffect.act ++
              [FlowEffect.stepEnd idx a])

structure FlowResult where
  value : String
  vars : List (String × JVal)

/-- `flow_spec.get("vars") or {}` with the dict check. -/
def flowBaseVars (flow_spec : JVal) : Except FlowErr (List (String × JVal)) :=
  match jGet flow_spec "vars" with
  | none => .ok []
  | some v =>
      if jFalsy v then .ok []
      else
        match v with
        | .obj fields => .ok fields
        | _ => .error (.spec 0 "vars must be an object")

/-- The conventional `result` context variable when no `result` template
is given. -/
def flowResultValue (ctx : List (String × JVal)) : String :=
  match ctxGet ctx "result" with
  | none => ""
  | some .null => ""
  | some v => jToStr v

/-- Result handling after the loop: an explicit templated `result` field,
else the context's `result` variable. -/
def flowFinish (flow_spec : JVal) (effs : List FlowEffect)
    (ctx : List (String × JVal)) : List FlowEffect × Except FlowErr FlowResult :=
  match jGet flow_spec "result" with
  | none => (effs, .ok ⟨flowResultValue ctx, ctx⟩)
  | some .null => (effs, .ok ⟨flowResultValue ctx, ctx⟩)
  | some (.str t) =>
      match render_template t ctx with
      | .error e => (effs, .error e)
      | .ok s => (effs, .ok ⟨s, ctx⟩)
  | some _ => (effs, .error (.spec 0 "result must be a string"))

/-- Mirror of `run_flow`: vars seeding (declared defaults overridden by
caller vars), the step loop, then result handling. -/
def run_flow (oracle : Nat → String) (flow_spec : JVal)
    (callerVars : List (String × JVal)) :
    List FlowEffect × Except FlowErr FlowResult :=
  match flow_spec with
  | .obj _ =>
      match flowBaseVars flow_spec with
      | .error e => ([], .error e)
      | .ok bv =>
          match jGet flow_spec "steps" with
          | some (.arr steps) =>
              match runSteps oracle steps 0
                  (callerVars.foldl (fun c kv => ctxSet c kv.1 kv.2)
                    (bv.foldl (fun c kv => ctxSet c kv.1 kv.2) [])) [] with
              | (effs, .error e) => (effs, .error e)
              | (effs, .ok ctx) => flowFinish flow_spec effs ctx
          | _ => ([], .error (.spec 0 "steps must be a list"))
  | _ => ([], .error (.spec 0 "flow spec must be a JSON object"))

def flowHiSpec : JVal :=
  .obj [("vars", .obj [("q", .str "hi")]),
    ("steps", .arr [.obj [("action", .str "navigate"),
      ("url", .str "http://x/\x7b\x7bq\x7d\x7d")]])]

def flowMissingSpec : JVal :=
  .obj [("steps", .arr [.obj [("action", .str "navigate"),
    ("url", .str "http://x/\x7b\x7bmissing\x7d\x7d")]])]

/-- C4: a flow step whose templating hits an unbound name raises SpecError
before the step performs any side effect and adds no event or runner call
(no partial substitution is observable); with all names bound, every
template in string-valued fields is substituted, so vars q=hi with a
navigate step on "http://x/&#123;&#123;q&#125;&#125;" navigates to
"http://x/hi", while an unbound name aborts the whole flow with no
navigation at all. -/
theorem flow_template_resolution :
    (∀ (oracle : Nat → String) (fields : List (String × JVal)) (rest : List JVal)
        (idx : Nat) (ctx : List (String × JVal)) (effs : List FlowEffect) (e : FlowErr),
      render_obj ctx (.obj fields) = .error e →
      runSteps oracle (.obj fields :: rest) idx ctx effs = (effs, .error e)) ∧
    (∀ oracle : Nat → String,
      run_flow oracle flowHiSpec [] =
        ([FlowEffect.stepStart 0 "navigate", FlowEffect.act (.navigate "http://x/hi"),
          FlowEffect.stepEnd 0 "navigate"],
          .ok ⟨"", [("q", .str "hi")]⟩)) ∧
    (∀ oracle : Nat → String,
      run_flow oracle flowMissingSpec [] = ([], .error (.unknownVar "missing"))) := by
  refine ⟨?_, ?_, ?_⟩
  · intro oracle fields rest idx ctx effs e hre
    have hstep : runStep oracle idx ctx (.obj fields) = .preErr e := by
      simp only [runStep, hre]
    simp only [runSteps, hstep]
  · intro oracle
    rfl
  · intro oracle
    rfl

/-- Witness for C4: the general no-effect conjunct at a concrete unbound
template. -/
theorem flow_template_resolution_witness :
    runSteps (fun _ => "") [JVal.obj [("action", JVal.str "navigate"),
        ("url", JVal.str "http://x/\x7b\x7bmissing\x7d\x7d")]] 0 [] [] =
      ([], .error (.unknownVar "missing")) :=
  flow_template_resolution.1 (fun _ => "")
    [("action", JVal.str "navigate"), ("url", JVal.str "http://x/\x7b\x7bmissing\x7d\x7d")]
    [] 0 [] [] (.unknownVar "missing") (by rfl)

def flowBadSpec : JVal :=
  .obj [("steps", .arr [
    .obj [("action", .str "navigate"), ("url", .str "http://x")],
    .obj [("action", .str "frobnicate")]])]

/-- C9 counterexample: a step whose action is unknown emits its
flow.step.start event but no flow.step.end event — the loop body has no
try/finally around the dispatch, so a raising step skips the end emit. -/
theorem flow_step_events_counterexample :
    run_flow (fun _ => "") flowBadSpec [] =
      ([FlowEffect.stepStart 0 "navigate", FlowEffect.act (.navigate "http://x"),
        FlowEffect.stepEnd 0 "navigate", FlowEffect.stepStart 1 "frobnicate"],
        .error (.spec 1 "unknown action")) ∧
    FlowEffect.stepEnd 1 "frobnicate" ∉
      [FlowEffect.stepStart 0 "navigate", FlowEffect.act (.navigate "http://x"),
        FlowEffect.stepEnd 0 "navigate", FlowEffect.stepStart 1 "frobnicate"] := by
  constructor
  · rfl
  · decide

lemma runSteps_append (oracle : Nat → String) :
    ∀ (steps : List JVal) (idx : Nat) (ctx : List (String × JVal))
      (effs : List FlowEffect),
      runSteps oracle steps idx ctx effs =
        (effs ++ (runSteps oracle steps idx ctx []).1,
          (runSteps oracle steps idx ctx []).2) := by
  intro steps
  induction steps with
  | nil => intro idx ctx effs; simp [runSteps]
  | cons raw rest ih =>
      intro idx ctx effs
      cases hs : runStep oracle idx ctx raw with
      | preErr e => simp [runSteps, hs]
      | actErr a e => simp [runSteps, hs]
      | okStep a ctx2 aeffs =>
          simp only [runSteps, hs]
          rw [ih (idx + 1) ctx2
            (effs ++ [FlowEffect.stepStart idx a] ++ aeffs.map FlowEffect.act ++
              [FlowEffect.stepEnd idx a]),
            ih (idx + 1) ctx2
            ([] ++ [FlowEffect.stepStart idx a] ++ aeffs.map FlowEffect.act ++
              [FlowEffect.stepEnd idx a])]
          simp

lemma runSteps_ok_pairs (oracle : Nat → String) :
    ∀ (steps : List JVal) (idx : Nat) (ctx ctx' : List (String × JVal)),
      (runSteps oracle steps idx ctx []).2 = .ok ctx' →
      ∀ i a, FlowEffect.stepStart i a ∈ (runSteps oracle steps idx ctx []).1 →
        FlowEffect.stepEnd i a ∈ (runSteps oracle steps idx ctx []).1 := by
  intro steps
  induction steps with
  | nil =>
      intro idx ctx ctx' _ i a hmem
      simp [runSteps] at hmem
  | cons raw rest ih =>
      intro idx ctx ctx' hok i a hmem
      cases hs : runStep oracle idx ctx raw with
      | preErr e =>
          rw [runSteps, hs] at hok
          dsimp only at hok
          cases hok
      | actErr a0 e =>
          rw [runSteps, hs] at hok
          dsimp only at hok
          cases hok
      | okStep a0 ctx2 aeffs =>
          rw [runSteps, hs] at hok hmem ⊢
          dsimp only at hok hmem ⊢
          rw [runSteps_append oracle rest (idx + 1) ctx2] at hok hmem ⊢
          simp only [List.nil_append] at hok hmem ⊢
          rcases List.mem_append.mp hmem with hm | hm
          · rcases List.mem_append.mp hm with hm2 | hm2
            · rcases List.mem_append.mp hm2 with hm3 | hm3
              · have : i = idx ∧ a = a0 := by
                  simp at hm3
                  exact ⟨hm3.1, hm3.2⟩
                apply List.mem_append.mpr
                left
                apply List.mem_append.mpr
                right
                simp [this.1, this.2]
              · exfalso
                obtain ⟨x, _, hx⟩ := List.mem_map.mp hm3
                cases hx
            · exfalso
              simp at hm2
          · apply List.mem_append.mpr
            right
            exact ih (idx + 1) ctx2 ctx' hok i a hm

/-- C9 (amended): every step that begins executing emits flow.step.start;
flow.step.end is emitted only when the step's action completes without
raising — a step whose action raises emits start and no end and aborts the
flow — and in a run whose step loop completes successfully every start
event is paired with an end event. -/
theorem flow_step_events_amended :
    (∀ (oracle : Nat → String) (idx : Nat) (ctx : List (String × JVal)) (raw : JVal)
        (a : String) (e : FlowErr) (rest : List JVal) (effs : List FlowEffect),
      runStep oracle idx ctx raw = .actErr a e →
      runSteps oracle (raw :: rest) idx ctx effs =
        (effs ++ [FlowEffect.stepStart idx a], .error e)) ∧
    (∀ (oracle : Nat → String) (spec : JVal) (vars : List (String × JVal))
        (effs : List FlowEffect) (res : FlowResult),
      run_flow oracle spec vars = (effs, .ok res) →
      ∀ i a, FlowEffect.stepStart i a ∈ effs → FlowEffect.stepEnd i a ∈ effs) := by
  constructor
  · intro oracle idx ctx raw a e rest effs hs
    rw [runSteps, hs]
  · intro oracle spec vars effs res h i a hmem
    unfold run_flow at h
    split at h
    · split at h
      · simp at h
      · split at h
        · split at h
          · simp at h
          · rename_i effs0 ctx heq
            have heffs : effs = effs0 := by
              unfold flowFinish at h
              split at h
              · simp at h
                exact h.1.symm
              · simp at h
                exact h.1.symm
              · split at h
                · simp at h
                · simp at h
                  exact h.1.symm
              · simp at h
            have h2 := congrArg Prod.snd heq
            have h1 := congrArg Prod.fst heq
            have hend := runSteps_ok_pairs oracle _ 0 _ ctx h2 i a
              (by rw [h1]; exact heffs ▸ hmem)
            rw [heffs]
            rw [h1] at hend
            exact hend
        · simp at h
    · simp at h

/-- Witness for C9: a failing step emits exactly its start event. -/
theorem flow_step_events_amended_witness :
    runSteps (fun _ => "") [JVal.obj [("action", JVal.str "frobnicate")]] 0 [] [] =
      ([FlowEffect.stepStart 0 "frobnicate"], .error (.spec 0 "unknown action")) :=
  flow_step_events_amended.1 (fun _ => "") 0 [] (JVal.obj [("action", JVal.str "frobnicate")])
    "frobnicate" (.spec 0 "unknown action") [] [] (by rfl)

/-! ## C10 — paused session blocks chat_completion (`nibs.py` 136-166)

`chat_completion` body order under the session lock: `_deadman_check`
(raises on a set `pausedReason`), the runner/page checks, then baseline
read, input-selector wait, gaussian targeting, window focus, mouse
motion (with the optional detour), click, hybrid text entry, the Enter
press and the reply wait.  The happy path is abstracted as its ordered
effect list; the claim concerns the paused path, which precedes every
effect. -/

inductive ChatEffect
  | readBaseline
  | waitForInput (selector : String)
  | gaussianPointAt (selector : String)
  | bringToFront
  | mouseMove
  | mouseClick
  | enterText (prompt : String)
  | pressEnterKey
  | awaitReply
deriving DecidableEq

inductive ChatErr
  | paused (reason : String)
  | notStarted
  | noPage
deriving DecidableEq

structure SessionState where
  pausedReason : Option String
  started : Bool
  hasPage : Bool
deriving DecidableEq

/-- Mirror of `NibsSession.resume`: clears the reason unconditionally. -/
def resume (st : SessionState) : SessionState := { st with pausedReason := none }

/-- Mirror of `NibsSession.chat_completion` at the granularity of its
effects: `_deadman_check` raises first, then the runner and page checks,
then the OS-interaction sequence. -/
def chat_completion (st : SessionState) (inputSelector prompt reply : String) :
    Except ChatErr String × SessionState × List ChatEffect :=
  match st.pausedReason with
  | some r => (.error (.paused r), st, [])
  | none =>
      if st.started = false then (.error .notStarted, st, [])
      else if st.hasPage = false then (.error .noPage, st, [])
      else
        (.ok reply, st,
          [.readBaseline, .waitForInput inputSelector, .gaussianPointAt inputSelector,
            .bringToFront, .mouseMove, .mouseClick, .enterText prompt, .pressEnterKey,
            .awaitReply])

/-- C10: whenever pausedReason is set, chat_completion raises before any
DOM query, mouse movement, typing or other OS input (its effect list is
empty), leaves pausedReason and all other session state unchanged, and
resume() clears the reason. -/
theorem paused_session_blocks_chat (st : SessionState) (sel prompt reply r : String)
    (h : st.pausedReason = some r) :
    (chat_completion st sel prompt reply).1 = .error (.paused r) ∧
    (chat_completion st sel prompt reply).2.1 = st ∧
    (chat_completion st sel prompt reply).2.2 = [] ∧
    (resume st).pausedReason = none := by
  unfold chat_completion resume
  rw [h]
  exact ⟨rfl, rfl, rfl, rfl⟩

/-- Witness for C10 at a concrete paused session. -/
theorem paused_session_blocks_chat_witness :
    (chat_completion ⟨some "captcha page", true, true⟩ "#in" "hello" "reply").1 =
      .error (.paused "captcha page") ∧
    (chat_completion ⟨some "captcha page", true, true⟩ "#in" "hello" "reply").2.1 =
      ⟨some "captcha page", true, true⟩ ∧
    (chat_completion ⟨some "captcha page", true, true⟩ "#in" "hello" "reply").2.2 = [] ∧
    (resume ⟨some "captcha page", true, true⟩).pausedReason = none :=
  paused_session_blocks_chat ⟨some "captcha page", true, true⟩ "#in" "hello" "reply"
    "captcha page" rfl
